import Mathlib

/-!
Verification development for the lingq_upload downloader core
(internal/downloader: processor.go, manager.go, englishereader.go).

Go strings are embedded as `String` / `List Char`; Go's regexp calls are
embedded by a small backtracking matcher specialised to the fixed
patterns compiled in the source; `map[string]bool` sets are embedded as
duplicate-free `List String`; fallible Go functions return `Except`.

The file is organised as definitions first, theorems second.
-/

set_option maxRecDepth 8000

/-! ## Definitions -/

/-! ### Go string primitives (strings package, ASCII fragment) -/

/-- Go `strings.TrimSuffix(s, suf)`. -/
def goTrimSuf (s suf : List Char) : List Char :=
  if suf.isSuffixOf s then s.take (s.length - suf.length) else s

/-- Remove every trailing `'/'` (used to state the spec's "strip any trailing slash"). -/
def goTrimTrailSlashes (s : List Char) : List Char :=
  (s.reverse.dropWhile (· == '/')).reverse

/-- The ASCII part of Go's `unicode.IsSpace`, as used by `strings.TrimSpace`. -/
def isGoSpace (c : Char) : Bool :=
  c == ' ' || c == '\t' || c == '\n' || c == '\x0b' || c == '\x0c' || c == '\r'

/-- Go `strings.TrimSpace` (ASCII whitespace; the repository only feeds it ASCII). -/
def goTrimSpace (s : List Char) : List Char :=
  ((s.dropWhile isGoSpace).reverse.dropWhile isGoSpace).reverse

/-- ASCII lower-casing of one character, agreeing with Go `strings.ToLower` on ASCII. -/
def lowerChar (c : Char) : Char :=
  if 'A' ≤ c ∧ c ≤ 'Z' then Char.ofNat (c.toNat + 32) else c

/-- Go `strings.ToLower` restricted to ASCII input. -/
def toLowerAscii (s : List Char) : List Char := s.map lowerChar

/-- Index of the first occurrence of `sep` in `s` (Go `strings.Index`, `sep` nonempty). -/
def indexOfSub (sep : List Char) : List Char → Option Nat
  | [] => if sep.isPrefixOf ([] : List Char) then some 0 else none
  | c :: cs => if sep.isPrefixOf (c :: cs) then some 0 else (indexOfSub sep cs).map (· + 1)

/-- Go `strings.Contains(s, sub)` for nonempty `sub`. -/
def goContains (s sub : List Char) : Bool := (indexOfSub sub s).isSome

/-- Fuel-driven core of Go `strings.Split(s, sep)` for nonempty `sep`. -/
def goSplitAux (sep : List Char) : Nat → List Char → List (List Char)
  | 0, cs => [cs]
  | fuel + 1, cs =>
    match indexOfSub sep cs with
    | none => [cs]
    | some i => cs.take i :: goSplitAux sep fuel (cs.drop (i + sep.length))

/-- Go `strings.Split(s, sep)` for nonempty `sep` (fuel `s.length` always suffices). -/
def goSplit (s sep : List Char) : List (List Char) := goSplitAux sep s.length s

/-- Fuel-driven core of Go `strings.ReplaceAll(s, sub, rep)` for nonempty `sub`. -/
def goReplaceAllAux (sub rep : List Char) : Nat → List Char → List Char
  | 0, cs => cs
  | fuel + 1, cs =>
    if sub.isPrefixOf cs then rep ++ goReplaceAllAux sub rep fuel (cs.drop sub.length)
    else
      match cs with
      | [] => []
      | c :: cs' => c :: goReplaceAllAux sub rep fuel cs'

/-- Go `strings.ReplaceAll(s, sub, rep)` for nonempty `sub`. -/
def goReplaceAll (s sub rep : List Char) : List Char :=
  goReplaceAllAux sub rep s.length s

/-- Equality of `Except` results is decidable componentwise. -/
instance {ε α : Type} [DecidableEq ε] [DecidableEq α] : DecidableEq (Except ε α) := fun a b =>
  match a, b with
  | Except.ok x, Except.ok y =>
    if h : x = y then Decidable.isTrue (by rw [h]) else
      Decidable.isFalse (fun hc => h (Except.ok.inj hc))
  | Except.error x, Except.error y =>
    if h : x = y then Decidable.isTrue (by rw [h]) else
      Decidable.isFalse (fun hc => h (Except.error.inj hc))
  | Except.ok _, Except.error _ => Decidable.isFalse (fun hc => Except.noConfusion hc)
  | Except.error _, Except.ok _ => Decidable.isFalse (fun hc => Except.noConfusion hc)

/-! ### A small regex matcher

The provider compiles four fixed `regexp` patterns. They are embedded as
sequences of elements (literals, greedy character-class quantifiers, one
capture group), matched with the leftmost-first greedy-with-backtracking
semantics of Go's regexp engine. -/

/-- Character classes occurring in the source's patterns. -/
inductive CClass where
  | notChar (c : Char)
  | notIn (cs : List Char)
  | oneOf (cs : List Char)
  | alnum
deriving DecidableEq

/-- Membership test of a character class. `alnum` is `[a-zA-Z0-9]`. -/
def CClass.memb : CClass → Char → Bool
  | .notChar c, x => !(x == c)
  | .notIn cs, x => !(cs.contains x)
  | .oneOf cs, x => cs.contains x
  | .alnum, x => decide (('a' ≤ x ∧ x ≤ 'z') ∨ ('A' ≤ x ∧ x ≤ 'Z') ∨ ('0' ≤ x ∧ x ≤ '9'))

/-- Greedy quantifiers: `*`, `+`, `?`, and "exactly one". -/
inductive Quant where
  | star
  | plus
  | opt
  | one
deriving DecidableEq

/-- Largest repetition count a quantifier may take, given a maximal run of `m`. -/
def quantHi : Quant → Nat → Nat
  | .star, m => m
  | .plus, m => m
  | .opt, m => min m 1
  | .one, m => min m 1

/-- Smallest repetition count a quantifier may take. -/
def quantLo : Quant → Nat
  | .star => 0
  | .plus => 1
  | .opt => 0
  | .one => 1

/-- One element of a pattern: a literal, a quantified class, or the capture group. -/
inductive RElem where
  | lit (s : List Char)
  | cls (p : CClass) (q : Quant)
  | cap (p : CClass)

/-- `[hi, hi-1, ..., lo]`, the greedy backtracking order; empty when `hi < lo`. -/
def descRange (hi lo : Nat) : List Nat :=
  (List.range (hi + 1 - lo)).map (fun i => hi - i)

/-- First `some` produced by `f` along `ks`. -/
def firstSome (f : Nat → Option α) : List Nat → Option α
  | [] => none
  | k :: ks =>
    match f k with
    | some r => some r
    | none => firstSome f ks

/-- Match a pattern at the head of `cs`, returning the capture-group text (if the
pattern's `cap` element was traversed) and the suffix after the whole match.
Greedy quantifiers backtrack from the longest repetition, as in Go's regexp.
Fuel `pattern length + 1` always suffices (one unit per element). -/
def matchElems : Nat → List RElem → List Char → Option (Option (List Char) × List Char)
  | 0, _, _ => none
  | _ + 1, [], cs => some (none, cs)
  | fuel + 1, RElem.lit l :: es, cs =>
    if l.isPrefixOf cs then matchElems fuel es (cs.drop l.length) else none
  | fuel + 1, RElem.cls p q :: es, cs =>
    let m := (cs.takeWhile p.memb).length
    firstSome (fun k => matchElems fuel es (cs.drop k)) (descRange (quantHi q m) (quantLo q))
  | fuel + 1, RElem.cap p :: es, cs =>
    let m := (cs.takeWhile p.memb).length
    firstSome
      (fun k =>
        match matchElems fuel es (cs.drop k) with
        | some (_, rest) => some (some (cs.take k), rest)
        | none => none)
      (descRange m 1)

/-- Scan for all non-overlapping matches from the left (Go
`FindAllStringSubmatch(text, -1)`), collecting the capture group of each match.
Every pattern in the source matches at least one character, so fuel
`cs.length + 1` suffices. -/
def scanCaps : Nat → List RElem → List Char → List (List Char)
  | 0, _, _ => []
  | fuel + 1, pat, cs =>
    match matchElems (pat.length + 1) pat cs with
    | some (some cap, rest) => cap :: scanCaps fuel pat rest
    | some (none, rest) => scanCaps fuel pat rest
    | none =>
      match cs with
      | [] => []
      | _ :: cs' => scanCaps fuel pat cs'

/-- All capture-group submatches of `pat` in `cs`, in document order. -/
def reFindAll (pat : List RElem) (cs : List Char) : List (List Char) :=
  scanCaps (cs.length + 1) pat cs

/-! ### needsSplitting (processor.go lines 103-105) -/

/-- `needsSplitting(mp3Files, cueFiles)`:
`return len(mp3Files) == 1 && len(cueFiles) > 0`. -/
def needsSplitting (mp3Files cueFiles : List String) : Bool :=
  mp3Files.length == 1 && decide (0 < cueFiles.length)

/-! ### detectAvailableFormats (englishereader.go lines 240-250)

The source compiles `download\\?link=[^&]+&format=([a-zA-Z0-9]+)` from a Go
raw-string literal, so the regex text is `download\\?link=...`: a literal
backslash made optional by `?`, not an escaped question mark. -/

/-- The pattern of `detectAvailableFormats`:
`download` `\?` (optional literal backslash) `link=` `[^&]+` `&format=` `([a-zA-Z0-9]+)`. -/
def fmtLinkPat : List RElem :=
  [RElem.lit "download".data,
   RElem.cls (CClass.oneOf ['\\']) Quant.opt,
   RElem.lit "link=".data,
   RElem.cls (CClass.notIn ['&']) Quant.plus,
   RElem.lit "&format=".data,
   RElem.cap CClass.alnum]

/-- Append `x` unless already present (one `formats[k] = true` insertion into the
`map[string]bool` embedded as a duplicate-free list). -/
def insertIfNew (l : List String) (x : String) : List String :=
  if l.contains x then l else l ++ [x]

/-- Key set of the Go map built by inserting each element in turn. -/
def dedupKeepFirst (l : List String) : List String := l.foldl insertIfNew []

/-- `detectAvailableFormats(html)`: run the pattern over the lower-cased page,
lower-case each submatch, and collect the set of identifiers. -/
def detectAvailableFormats (html : String) : List String :=
  dedupKeepFirst
    ((reFindAll fmtLinkPat (toLowerAscii html.data)).map
      (fun m => String.mk (toLowerAscii m)))

/-! ### The per-format download loop (englishereader.go lines 85-119) -/

/-- The fixed format table of `Download`: `{format, ext}` pairs in loop order. -/
def formatsList : List (String × String) :=
  [("epub", ".epub"), ("mp3", ".mp3"), ("cue", ".cue"), ("mp3zip", ".zip")]

/-- The loop's skip test (line 96):
`len(availableFormats) > 0 && !availableFormats[f.format]`. -/
def skipsFormat (availableFormats : List String) (format : String) : Bool :=
  decide (0 < availableFormats.length) && !(availableFormats.contains format)

/-- The formats for which the loop reaches `downloadFile`, in loop order. -/
def attemptedFormats (availableFormats : List String) : List String :=
  (formatsList.map Prod.fst).filter (fun f => !(skipsFormat availableFormats f))

/-! ### fetchPage and httpStatusError (englishereader.go lines 154-208)

Go errors are embedded as a sum of the two shapes the provider produces: a
plain formatted message (`errors.New` / `fmt.Errorf`) and the typed
`*httpStatusError`. `errors.As` with a `*httpStatusError` target succeeds only
on the latter. -/

/-- The error values produced by the provider's HTTP helpers. -/
inductive GoError where
  | errorf (msg : String)
  | httpStatus (status : Nat)
deriving DecidableEq

/-- `errors.As(err, &statusErr)` followed by `statusErr.StatusCode()`:
yields the numeric code only for a typed `*httpStatusError`. -/
def errorsAsHTTPStatus : GoError → Option Nat
  | GoError.httpStatus s => some s
  | GoError.errorf _ => none

/-- An HTTP response as seen by `fetchPage`/`downloadFile` after `client.Do`. -/
structure HTTPResponse where
  statusCode : Nat
  body : String
deriving DecidableEq

/-- `fetchPage` body after the GET (lines 164-171): a non-200 status yields
`fmt.Errorf("unexpected status code %d", resp.StatusCode)` — a plain message
error — and a 200 status yields the raw body. -/
def fetchPage (resp : HTTPResponse) : Except GoError String :=
  if resp.statusCode ≠ 200 then
    Except.error (GoError.errorf ("unexpected status code " ++ toString resp.statusCode))
  else Except.ok resp.body

/-- `downloadFile` status handling (lines 196-198): a non-200 status yields the
typed `&httpStatusError{status: resp.StatusCode}`. -/
def downloadFileStatus (resp : HTTPResponse) : Except GoError Unit :=
  if resp.statusCode ≠ 200 then Except.error (GoError.httpStatus resp.statusCode)
  else Except.ok ()

/-! ### extractSlug (englishereader.go lines 129-152) -/

/-- The quote alternatives `["']` used by the metadata patterns. -/
def quoteChars : List Char := ['"', '\'']

/-- The title pattern `<title>([^<]+)</title>`. -/
def titlePat : List RElem :=
  [RElem.lit "<title>".data,
   RElem.cap (CClass.notChar '<'),
   RElem.lit "</title>".data]

/-- The description pattern
`<meta[^>]+property=["']og:description["'][^>]+content=["']([^"']+)["']`. -/
def descPat : List RElem :=
  [RElem.lit "<meta".data,
   RElem.cls (CClass.notChar '>') Quant.plus,
   RElem.lit "property=".data,
   RElem.cls (CClass.oneOf quoteChars) Quant.one,
   RElem.lit "og:description".data,
   RElem.cls (CClass.oneOf quoteChars) Quant.one,
   RElem.cls (CClass.notChar '>') Quant.plus,
   RElem.lit "content=".data,
   RElem.cls (CClass.oneOf quoteChars) Quant.one,
   RElem.cap (CClass.notIn quoteChars),
   RElem.cls (CClass.oneOf quoteChars) Quant.one]

/-- The tag pattern
`<span[^>]*class=["'][^"']*label[^"']*label-default[^"']*["'][^>]*>([^<]+)</span>`. -/
def spanTagPat : List RElem :=
  [RElem.lit "<span".data,
   RElem.cls (CClass.notChar '>') Quant.star,
   RElem.lit "class=".data,
   RElem.cls (CClass.oneOf quoteChars) Quant.one,
   RElem.cls (CClass.notIn quoteChars) Quant.star,
   RElem.lit "label".data,
   RElem.cls (CClass.notIn quoteChars) Quant.star,
   RElem.lit "label-default".data,
   RElem.cls (CClass.notIn quoteChars) Quant.star,
   RElem.cls (CClass.oneOf quoteChars) Quant.one,
   RElem.cls (CClass.notChar '>') Quant.star,
   RElem.lit ">".data,
   RElem.cap (CClass.notChar '<'),
   RElem.lit "</span>".data]

/-- `htmlUnescape` (lines 309-322): the five entity replacements, applied in the
map-literal order (Go map iteration order is unspecified; the order only matters
on inputs where one replacement manufactures another entity, which the
repository's pages do not contain). -/
def htmlUnescape (s : List Char) : List Char :=
  goReplaceAll
    (goReplaceAll
      (goReplaceAll
        (goReplaceAll (goReplaceAll s "&amp;".data "&".data) "&lt;".data "<".data)
        "&gt;".data ">".data)
      "&quot;".data "\"".data)
    "&#39;".data "'".data

/-- `extractFirst(text, pattern)` (lines 252-259): first submatch, entity-decoded
and whitespace-trimmed, or `""`. -/
def extractFirst (text : String) (pat : List RElem) : String :=
  match reFindAll pat text.data with
  | m :: _ => String.mk (goTrimSpace (htmlUnescape m))
  | [] => ""

/-- `extractAll(text, pattern)` (lines 261-271): every submatch in document
order, each entity-decoded and whitespace-trimmed. No deduplication occurs. -/
def extractAll (text : String) (pat : List RElem) : List String :=
  (reFindAll pat text.data).map (fun m => String.mk (goTrimSpace (htmlUnescape m)))

/-- The author delimiter `" - "` of `parseEnglishEReaderMetadata`. -/
def sepDash : List Char := " - ".data

/-- The author computation (lines 220-226): `parts := strings.Split(title, " - ")`;
if `len(parts) > 1` the author is `strings.TrimSpace(parts[1])`, else `""`. -/
def authorFromTitle (title : List Char) : List Char :=
  match goSplit title sepDash with
  | _ :: p :: _ => goTrimSpace p
  | _ => []

/-- The fixed level list of `findFirstLevel` (lines 273-290), in check order. -/
def levelsList : List String :=
  ["A1 Starter", "A2 Elementary", "B1 Pre-Intermediate", "B1+ Intermediate",
   "B2 Intermediate-Plus", "B2+ Upper-Intermediate", "C1 Advanced", "C2 Unabridged"]

/-- `findFirstLevel(html)`: the first listed level that occurs anywhere in the page. -/
def findFirstLevel (html : String) : String :=
  (levelsList.find? (fun lvl => goContains html.data lvl.data)).getD ""

/-- `mapEnglishLevel` (lines 292-307): the fixed raw-to-normalized level table. -/
def mapEnglishLevel (original : String) : String :=
  if original = "A1 Starter" then "Beginner 1"
  else if original = "A2 Elementary" then "Beginner 2"
  else if original = "B1 Pre-Intermediate" then "Intermediate 1"
  else if original = "B1+ Intermediate" then "Intermediate 1"
  else if original = "B2 Intermediate-Plus" then "Intermediate 2"
  else if original = "B2+ Upper-Intermediate" then "Intermediate 2"
  else if original = "C1 Advanced" then "Advanced 1"
  else if original = "C2 Unabridged" then "Advanced 2"
  else "Unknown Level"

/-- The `englishEReaderMetadata` record (lines 210-216). -/
structure EnglishEReaderMetadata where
  Title : String
  Level : String
  Author : String
  Description : String
  Tags : List String
deriving DecidableEq

/-- `parseEnglishEReaderMetadata(html)` (lines 218-238). -/
def parseEnglishEReaderMetadata (html : String) : EnglishEReaderMetadata :=
  let title := extractFirst html titlePat
  let author := if title = "" then "" else String.mk (authorFromTitle title.data)
  let description := extractFirst html descPat
  let level := mapEnglishLevel (findFirstLevel html)
  let tags := extractAll html spanTagPat
  ⟨title, level, author, description, tags⟩

/-! ### path/filepath (Unix rules), as used by manager.go and processor.go -/

/-- Go `filepath.IsAbs(path)` on Unix: the path begins with a slash. -/
def goIsAbs (p : String) : Bool := "/".data.isPrefixOf p.data

/-- The element processing of Go `filepath.Clean`: skip empty and `.` elements,
let `..` pop a non-`..` stack top (or survive when the stack is empty and the
path is not rooted), push everything else. The stack is kept reversed
(head = most recent element). -/
def cleanStack : Bool → List (List Char) → List (List Char) → List (List Char)
  | _, [], stack => stack.reverse
  | rooted, part :: rest, stack =>
    if part = [] ∨ part = ['.'] then cleanStack rooted rest stack
    else if part = ['.', '.'] then
      match stack with
      | top :: stack' =>
        if top = ['.', '.'] then cleanStack rooted rest (part :: top :: stack')
        else cleanStack rooted rest stack'
      | [] => if rooted then cleanStack rooted rest [] else cleanStack rooted rest [part]
    else cleanStack rooted rest (part :: stack)

/-- Join path elements with `'/'`. -/
def intercalateSlash : List (List Char) → List Char
  | [] => []
  | [p] => p
  | p :: ps => p ++ '/' :: intercalateSlash ps

/-- Go `filepath.Clean(path)` on Unix (lexical processing of the element list). -/
def goCleanL (s : List Char) : List Char :=
  if s = [] then ['.']
  else
    let rooted : Bool :=
      match s with
      | '/' :: _ => true
      | _ => false
    let body := intercalateSlash (cleanStack rooted (goSplit s ['/']) [])
    if rooted then '/' :: body
    else if body = [] then ['.'] else body

/-- Go `filepath.Join(a, b)` on Unix: join the non-empty elements with a slash
and `Clean` the result; all-empty input yields `""`. -/
def goJoinL (a b : List Char) : List Char :=
  if a = [] ∧ b = [] then []
  else if a = [] then goCleanL b
  else if b = [] then goCleanL a
  else goCleanL (a ++ '/' :: b)

/-- String-level `filepath.Join`. -/
def goJoin (a b : String) : String := String.mk (goJoinL a.data b.data)

/-! ### Manager (manager.go lines 9-55) -/

/-- The `Result` record (manager.go lines 17-22). -/
structure Result where
  Provider : String
  OutputDir : String
  Files : List String
  MetadataPath : String
deriving DecidableEq

/-- Errors surfaced by `Manager.Download`: its own
`fmt.Errorf("no provider can handle input %q", input)` or an error propagated
unwrapped from the chosen provider (carried as its message). -/
inductive DlError where
  | noProvider (input : String)
  | provider (msg : String)
deriving DecidableEq

/-- A registered `Provider` (manager.go lines 10-14): its name, its `Match`
predicate and its `Download` behaviour as a function of input and output root. -/
structure ProviderM where
  name : String
  matchInput : String → Bool
  download : String → String → Except DlError Result

/-- The output-directory rewrite of `Manager.Download` (lines 47-50):
a relative directory is re-rooted with `filepath.Join(outputRoot, dir)`;
an absolute one is left unchanged. -/
def resolveOutputDir (outputRoot : String) (r : Result) : Result :=
  if goIsAbs r.OutputDir then r else { r with OutputDir := goJoin outputRoot r.OutputDir }

/-- The body of the match arm of `Manager.Download` (lines 43-51): run the
matched provider, propagate its error unwrapped, else rewrite the output dir. -/
def handleMatched (outputRoot : String) (p : ProviderM) (input : String) :
    Except DlError Result :=
  match p.download input outputRoot with
  | Except.error e => Except.error e
  | Except.ok r => Except.ok (resolveOutputDir outputRoot r)

/-- `Manager.Download` (lines 40-55): first matching provider in registration
order wins; no match at all fails with the no-provider error. -/
def managerDownload (outputRoot : String) (providers : List ProviderM) (input : String) :
    Except DlError Result :=
  match providers with
  | [] => Except.error (DlError.noProvider input)
  | p :: rest =>
    if p.matchInput input then handleMatched outputRoot p input
    else managerDownload outputRoot rest input

/-- A provider result declaring a relative output directory (as the repository's
`mockProvider` does in `TestManager_Download_AbsolutePathHandling`). -/
def relDirResult : Result := ⟨"mock", "rel", ["file1.txt"], ""⟩

/-- A mock provider that matches everything and returns `relDirResult`. -/
def alwaysProvider : ProviderM := ⟨"mock", fun _ => true, fun _ _ => Except.ok relDirResult⟩

/-- A mock provider that matches nothing. -/
def neverProvider : ProviderM :=
  ⟨"never", fun _ => false, fun _ _ => Except.error (DlError.provider "unused")⟩

/-- A matching mock provider whose download must never run. -/
def thirdProvider : ProviderM :=
  ⟨"third", fun _ => true, fun _ _ => Except.error (DlError.provider "third invoked")⟩

/-! ### AudioProcessor.Process (processor.go lines 36-98) -/

/-- Reverse scan of Go `filepath.Ext`: collect from the last `'.'` before any `'/'`. -/
def goExtAux : List Char → List Char → List Char
  | [], _ => []
  | c :: rest, acc =>
    if c = '/' then []
    else if c = '.' then c :: acc
    else goExtAux rest (c :: acc)

/-- Go `filepath.Ext(path)`: the suffix from the final dot of the last element. -/
def goExt (s : List Char) : List Char := goExtAux s.reverse []

/-- Everything after the final `'/'`. -/
def lastComponentAux : List Char → List Char → List Char
  | [], cur => cur.reverse
  | c :: rest, cur =>
    if c = '/' then lastComponentAux rest [] else lastComponentAux rest (c :: cur)

/-- Go `filepath.Base(path)` on Unix. -/
def goBase (s : List Char) : List Char :=
  if s = [] then ['.']
  else
    let t := goTrimTrailSlashes s
    if t = [] then ['/'] else lastComponentAux t []

/-- The `ProcessResult` record (processor.go lines 36-41). -/
structure ProcessResult where
  Processed : Bool
  SplitFilesDir : String
  OriginalFile : String
  CueFile : String
deriving DecidableEq

/-- `Process` (lines 50-98) after the `findFilesByExt` scans, with the scanned
lists supplied as inputs and the external `m4b-tool` invocation abstracted by
`splitOk` (strict mode: a failed split aborts with an error). On the splitting
path it reads `mp3Files[0]` and `cueFiles[0]` (embedded as `headD`, with
in-bounds-ness asserted separately), records them in the result, and derives
the split directory `filepath.Join(outputDir, baseName + "_splitted")` with
`baseName := strings.TrimSuffix(filepath.Base(mp3File), filepath.Ext(mp3File))`. -/
def process (outputDir : String) (mp3Files cueFiles : List String) (splitOk : Bool) :
    Except String ProcessResult :=
  if !(needsSplitting mp3Files cueFiles) then Except.ok ⟨false, "", "", ""⟩
  else
    let mp3File := mp3Files.headD ""
    let cueFile := cueFiles.headD ""
    if !splitOk then Except.error "m4b-tool split failed"
    else
      let baseName := goTrimSuf (goBase mp3File.data) (goExt mp3File.data)
      Except.ok
        ⟨true, goJoin outputDir (String.mk (baseName ++ "_splitted".data)), mp3File, cueFile⟩

/-! ## Theorems -/

/-- C1: `needsSplitting(audioFiles, indexFiles)` is true exactly when there is one
audio file and at least one index file; any other combination is false, and file
contents are never consulted (the function only sees the path lists). -/
theorem needsSplitting_iff (audioFiles indexFiles : List String) :
    needsSplitting audioFiles indexFiles = true ↔
      (audioFiles.length = 1 ∧ 1 ≤ indexFiles.length) := by
  simp [needsSplitting, Nat.succ_le_iff]

/-- C2: the compiled pattern never matches a real `download?link=...&format=...`
URL: the `\\?` in the raw-string pattern is an optional literal backslash, so the
`?` character in the link defeats the match. The repository's own
`TestDetectAvailableFormats` feeds exactly these pages and expects `{"epub"}`,
but the function returns the empty set; it would match only if the `?` in the
URL were replaced by a backslash (or dropped). -/
theorem detectAvailableFormats_misses_question_links :
    detectAvailableFormats "<a href=\"download?link=test&format=epub\">EPUB</a>" = [] ∧
    detectAvailableFormats
      "<a href=\"download?link=test&format=epub\">EPUB 1</a><a href=\"download?link=test&format=epub\">EPUB 2</a>" = [] ∧
    detectAvailableFormats "<html><body>No download links</body></html>" = [] ∧
    detectAvailableFormats "<a href=\"download\\link=test&format=epub\">EPUB</a>" = ["epub"] := by
  refine ⟨?_, ?_, ?_, ?_⟩ <;> decide

/-- C3: a format is skipped exactly when the detected set is non-empty and does
not contain it; with an empty detected set all four formats are attempted, and
the attempted formats are always a subsequence of the fixed order
epub, mp3, cue, mp3zip. -/
theorem formats_skip_policy :
    (∀ (avail : List String) (f : String),
        skipsFormat avail f = true ↔ (avail ≠ [] ∧ f ∉ avail)) ∧
    attemptedFormats [] = ["epub", "mp3", "cue", "mp3zip"] ∧
    (∀ avail : List String,
        List.Sublist (attemptedFormats avail) (formatsList.map Prod.fst)) := by
  refine ⟨fun avail f => ?_, by decide, fun avail => List.filter_sublist _⟩
  simp [skipsFormat, List.length_pos]

/-- C4 counterexample: on a 404 page fetch the error is the plain formatted one,
and inspecting it as an `httpStatusError` (as `Download` does via `errors.As`)
yields nothing — the numeric status is not available to the caller. -/
theorem fetchPage_not_inspectable :
    fetchPage ⟨404, ""⟩ = Except.error (GoError.errorf "unexpected status code 404") ∧
    errorsAsHTTPStatus (GoError.errorf "unexpected status code 404") = none ∧
    downloadFileStatus ⟨404, ""⟩ = Except.error (GoError.httpStatus 404) := by
  refine ⟨?_, rfl, ?_⟩ <;> decide

/-- C4 amended: any non-200 response makes `fetchPage` fail with the plain
formatted error whose message embeds the status (not a typed, inspectable
`httpStatusError`); a 200 response returns the raw body. -/
theorem fetchPage_plain_error (resp : HTTPResponse) :
    (resp.statusCode ≠ 200 →
      fetchPage resp =
        Except.error (GoError.errorf ("unexpected status code " ++ toString resp.statusCode)) ∧
      errorsAsHTTPStatus
        (GoError.errorf ("unexpected status code " ++ toString resp.statusCode)) = none) ∧
    (resp.statusCode = 200 → fetchPage resp = Except.ok resp.body) := by
  constructor
  · intro h
    exact ⟨by simp [fetchPage, h], rfl⟩
  · intro h
    simp [fetchPage, h]

/-- Witness for `fetchPage_plain_error` at statuses 500 and 200. -/
theorem fetchPage_plain_error_witness :
    (fetchPage ⟨500, ""⟩ =
        Except.error (GoError.errorf ("unexpected status code " ++ toString 500)) ∧
      errorsAsHTTPStatus
        (GoError.errorf ("unexpected status code " ++ toString 500)) = none) ∧
    fetchPage ⟨200, "page body"⟩ = Except.ok "page body" :=
  ⟨(fetchPage_plain_error ⟨500, ""⟩).1 (by decide),
   (fetchPage_plain_error ⟨200, "page body"⟩).2 rfl⟩

/-- `sepDash` as its character list. -/
theorem sepDash_data : sepDash = [' ', '-', ' '] := rfl

/-- A string without spaces contains no occurrence of `" - "`. -/
theorem indexOfSub_sepDash_none (s : List Char) (h : ' ' ∉ s) :
    indexOfSub sepDash s = none := by
  induction s with
  | nil => decide
  | cons c cs ih =>
    simp only [List.mem_cons, not_or] at h
    have hpre : sepDash.isPrefixOf (c :: cs) = false := by
      simp [sepDash_data, List.isPrefixOf]
      intro hc
      exact absurd hc h.1
    rw [indexOfSub, hpre]
    simp [ih h.2]

/-- The first `" - "` in `a ++ " - " ++ r` sits right after a space-free `a`. -/
theorem indexOfSub_sepDash_append (a r : List Char) (h : ' ' ∉ a) :
    indexOfSub sepDash (a ++ (sepDash ++ r)) = some a.length := by
  induction a with
  | nil =>
    have hpre : sepDash.isPrefixOf (sepDash ++ r) = true := by
      simp [sepDash_data, List.isPrefixOf]
    simp only [List.nil_append, sepDash_data, List.cons_append] at hpre ⊢
    rw [indexOfSub]
    simp_all [sepDash_data]
  | cons c a' ih =>
    simp only [List.mem_cons, not_or] at h
    have hpre : sepDash.isPrefixOf (c :: (a' ++ (sepDash ++ r))) = false := by
      simp [sepDash_data, List.isPrefixOf]
      intro hc
      exact absurd hc h.1
    simp only [List.cons_append]
    rw [indexOfSub, hpre]
    simp [ih h.2, List.length_cons]

/-- One step of `strings.Split` on `" - "`: a space-free head component is cut off. -/
theorem goSplitAux_sepDash_step (fuel : Nat) (a r : List Char) (h : ' ' ∉ a) :
    goSplitAux sepDash (fuel + 1) (a ++ (sepDash ++ r)) = a :: goSplitAux sepDash fuel r := by
  rw [goSplitAux, indexOfSub_sepDash_append a r h]
  have htake : (a ++ (sepDash ++ r)).take a.length = a := by
    simp
  have hdrop : (a ++ (sepDash ++ r)).drop (a.length + sepDash.length) = r := by
    rw [← List.append_assoc]
    have hlen : a.length + sepDash.length = (a ++ sepDash).length := by
      simp
    rw [hlen]
    exact List.drop_left (a ++ sepDash) r
  simp [htake, hdrop]

/-- `strings.Split` on `" - "` leaves a space-free string whole. -/
theorem goSplitAux_sepDash_single (fuel : Nat) (c : List Char) (h : ' ' ∉ c) :
    goSplitAux sepDash fuel c = [c] := by
  cases fuel with
  | zero => rfl
  | succ n =>
    rw [goSplitAux, indexOfSub_sepDash_none c h]

/-- C6 counterexample: for the two-delimiter title `"A - B - C"` the extracted
author is the second split component `"B"`, not the text after the first
delimiter `"B - C"` that the claim requires. -/
theorem author_two_delimiters :
    (parseEnglishEReaderMetadata "<title>A - B - C</title>").Author = "B" ∧
    ("B" : String) ≠ "B - C" := by
  exact ⟨by decide, by decide⟩

/-- C6 amended: the author field is the second `" - "`-separated component of the
title (the text between the first and second delimiters), whitespace-trimmed;
for a single-delimiter title this coincides with the text after the delimiter. -/
theorem author_second_component (a b c : List Char)
    (ha : ' ' ∉ a) (hb : ' ' ∉ b) (hc : ' ' ∉ c) :
    authorFromTitle (a ++ sepDash ++ b ++ sepDash ++ c) = goTrimSpace b ∧
    authorFromTitle (a ++ sepDash ++ b) = goTrimSpace b := by
  constructor
  · have hassoc : a ++ sepDash ++ b ++ sepDash ++ c = a ++ (sepDash ++ (b ++ (sepDash ++ c))) := by
      simp [List.append_assoc]
    rw [hassoc, authorFromTitle, goSplit]
    have hlen : (a ++ (sepDash ++ (b ++ (sepDash ++ c)))).length =
        (a.length + b.length + c.length + 5) + 1 := by
      simp [sepDash_data]
      omega
    rw [hlen, goSplitAux_sepDash_step _ _ _ ha]
    have h5 : a.length + b.length + c.length + 5 = (a.length + b.length + c.length + 4) + 1 := by
      omega
    rw [h5, goSplitAux_sepDash_step _ _ _ hb, goSplitAux_sepDash_single _ _ hc]
  · have hassoc : a ++ sepDash ++ b = a ++ (sepDash ++ b) := by
      simp [List.append_assoc]
    rw [hassoc, authorFromTitle, goSplit]
    have hlen : (a ++ (sepDash ++ b)).length = (a.length + b.length + 2) + 1 := by
      simp [sepDash_data]
      omega
    rw [hlen, goSplitAux_sepDash_step _ _ _ ha, goSplitAux_sepDash_single _ _ hb]

/-- Witness for `author_second_component` on the title pieces `A`, `B`, `C`. -/
theorem author_second_component_witness :
    (authorFromTitle ("A".data ++ sepDash ++ "B".data ++ sepDash ++ "C".data) =
      goTrimSpace "B".data ∧
     authorFromTitle ("A".data ++ sepDash ++ "B".data) = goTrimSpace "B".data) :=
  author_second_component "A".data "B".data "C".data (by decide) (by decide) (by decide)

/-- C7 counterexample: a page repeating the same tag-label markup twice yields
the tag twice — the tags list of the produced record has a duplicate, so
duplicates are not impossible by construction. -/
theorem tags_duplicates_possible :
    (parseEnglishEReaderMetadata
        "<span class=\"label label-default\">fiction</span><span class=\"label label-default\">fiction</span>").Tags =
      ["fiction", "fiction"] ∧
    ¬ List.Nodup
        (parseEnglishEReaderMetadata
          "<span class=\"label label-default\">fiction</span><span class=\"label label-default\">fiction</span>").Tags := by
  exact ⟨by decide, by decide⟩

/-- C7 amended: the tags list holds every match of the tag-label pattern in
document order (entity-decoded, trimmed) with no deduplication: the repository's
three-tag fixture markup yields its tags in page order, a page repeating one tag
yields it twice, and a page without tag markup yields the empty list. -/
theorem tags_order_no_dedup :
    (parseEnglishEReaderMetadata
        "<span class=\"label label-default\">fiction</span>\n<span class=\"label label-default\">classic</span>\n<span class=\"label label-default\">mystery</span>").Tags =
      ["fiction", "classic", "mystery"] ∧
    (parseEnglishEReaderMetadata
        "<span class=\"label label-default\">one</span><span class=\"label label-default\">one</span>").Tags =
      ["one", "one"] ∧
    (parseEnglishEReaderMetadata "<div>No tags here</div>").Tags = [] := by
  refine ⟨?_, ?_, ?_⟩ <;> decide

/-- A string is slash-led exactly when its character list starts with `'/'`. -/
theorem slashPre_iff (l : List Char) :
    "/".data.isPrefixOf l = true ↔ ∃ t, l = '/' :: t := by
  cases l with
  | nil => simp [List.isPrefixOf]
  | cons c t =>
    constructor
    · intro hc
      have hce : '/' = c := by
        simpa [List.isPrefixOf] using hc
      exact ⟨t, by rw [hce]⟩
    · rintro ⟨t', ht'⟩
      rw [ht']
      simp [List.isPrefixOf]

/-- `filepath.Clean` keeps a rooted path rooted. -/
theorem goCleanL_rooted (t : List Char) : ∃ u, goCleanL ('/' :: t) = '/' :: u := by
  rw [goCleanL, if_neg (by simp)]
  exact ⟨_, rfl⟩

/-- `filepath.Join` with an absolute first element is absolute. -/
theorem goIsAbs_goJoin (root d : String) (h : goIsAbs root = true) :
    goIsAbs (goJoin root d) = true := by
  obtain ⟨t, ht⟩ := (slashPre_iff root.data).mp h
  unfold goJoin goJoinL goIsAbs
  by_cases hb : d.data = []
  · rw [if_neg (by rw [ht]; simp), if_neg (by rw [ht]; simp), if_pos hb, ht]
    obtain ⟨u, hu⟩ := goCleanL_rooted t
    rw [hu]
    simp [List.isPrefixOf]
  · rw [if_neg (by rw [ht]; simp), if_neg (by rw [ht]; simp), if_neg hb, ht]
    obtain ⟨u, hu⟩ := goCleanL_rooted (t ++ '/' :: d.data)
    rw [List.cons_append, hu]
    simp [List.isPrefixOf]

/-- C8: `Manager.Download` returns the (rewritten) result of the first provider
whose `Match` accepts the input — the providers after it never run, since the
value is `handleMatched` of that provider alone — and fails with the
no-provider error when no registered provider matches (in particular when the
provider list is empty). -/
theorem manager_first_match :
    (∀ (root input : String) (pre post : List ProviderM) (p : ProviderM),
        (∀ q ∈ pre, q.matchInput input = false) → p.matchInput input = true →
        managerDownload root (pre ++ p :: post) input = handleMatched root p input) ∧
    (∀ (root input : String) (ps : List ProviderM),
        (∀ q ∈ ps, q.matchInput input = false) →
        managerDownload root ps input = Except.error (DlError.noProvider input)) := by
  constructor
  · intro root input pre post p hpre hp
    induction pre with
    | nil => simp [managerDownload, hp]
    | cons q qs ih =>
      have hq : q.matchInput input = false := hpre q (List.mem_cons_self q qs)
      simp only [List.cons_append, managerDownload]
      rw [if_neg (by simp [hq])]
      exact ih (fun x hx => hpre x (List.mem_cons_of_mem q hx))
  · intro root input ps hps
    induction ps with
    | nil => rfl
    | cons q qs ih =>
      have hq := hps q (List.mem_cons_self q qs)
      simp only [managerDownload]
      rw [if_neg (by simp [hq])]
      exact ih (fun x hx => hps x (List.mem_cons_of_mem q hx))

/-- Witness for `manager_first_match`: with a non-matching provider first, a
matching one second and another matching one third, dispatch returns the second
provider's handled result; an empty registration list yields the no-provider
error. -/
theorem manager_first_match_witness :
    managerDownload "/root" [neverProvider, alwaysProvider, thirdProvider] "in" =
      handleMatched "/root" alwaysProvider "in" ∧
    managerDownload "/root" ([] : List ProviderM) "in" =
      Except.error (DlError.noProvider "in") :=
  ⟨manager_first_match.1 "/root" "in" [neverProvider] [thirdProvider] alwaysProvider
      (by
        intro q hq
        rw [List.mem_singleton.mp hq]
        rfl)
      rfl,
   manager_first_match.2 "/root" "in" []
      (by
        intro q hq
        cases hq)⟩

/-- C9 counterexample: with the configured output root `"root"` (itself
relative, as with the CLI default `-out .`), a winning provider declaring the
relative directory `"rel"` makes `Manager.Download` return `"root/rel"` —
rooted at the output root but not an absolute path. -/
theorem manager_relative_root_not_abs :
    managerDownload "root" [alwaysProvider] "in" =
      Except.ok ⟨"mock", "root/rel", ["file1.txt"], ""⟩ ∧
    goIsAbs "root/rel" = false := by
  exact ⟨by decide, by decide⟩

/-- C9 amended: on a successful dispatch the winning provider's relative output
directory is rewritten to `filepath.Join(outputRoot, dir)` — rooted at the
configured output root, and absolute whenever that root is itself absolute —
while an already-absolute directory is passed through unchanged. -/
theorem manager_output_dir_rewrite (root input : String) (p : ProviderM)
    (rest : List ProviderM) (r : Result)
    (hm : p.matchInput input = true) (hd : p.download input root = Except.ok r) :
    managerDownload root (p :: rest) input = Except.ok (resolveOutputDir root r) ∧
    (goIsAbs r.OutputDir = true → resolveOutputDir root r = r) ∧
    (goIsAbs r.OutputDir = false →
      (resolveOutputDir root r).OutputDir = goJoin root r.OutputDir ∧
      (goIsAbs root = true → goIsAbs (resolveOutputDir root r).OutputDir = true)) := by
  refine ⟨?_, ?_, ?_⟩
  · simp [managerDownload, hm, handleMatched, hd]
  · intro habs
    simp [resolveOutputDir, habs]
  · intro hrel
    refine ⟨by simp [resolveOutputDir, hrel], fun hroot => ?_⟩
    rw [resolveOutputDir, if_neg (by simp [hrel])]
    exact goIsAbs_goJoin root r.OutputDir hroot

/-- Witness for `manager_output_dir_rewrite`: with the absolute root `"/out"`
and a provider declaring the relative directory `"rel"`, the returned directory
is `filepath.Join("/out", "rel")` and is absolute. -/
theorem manager_output_dir_rewrite_witness :
    managerDownload "/out" [alwaysProvider] "in" =
      Except.ok (resolveOutputDir "/out" relDirResult) ∧
    (resolveOutputDir "/out" relDirResult).OutputDir = goJoin "/out" relDirResult.OutputDir ∧
    goIsAbs (resolveOutputDir "/out" relDirResult).OutputDir = true :=
  ⟨(manager_output_dir_rewrite "/out" "in" alwaysProvider [] relDirResult rfl rfl).1,
   ((manager_output_dir_rewrite "/out" "in" alwaysProvider [] relDirResult rfl rfl).2.2
      (by decide)).1,
   ((manager_output_dir_rewrite "/out" "in" alwaysProvider [] relDirResult rfl rfl).2.2
      (by decide)).2 (by decide)⟩

/-- C10: whenever `needsSplitting` holds inside `Process`, both scanned lists
are non-empty — so the accesses `mp3Files[0]` and `cueFiles[0]` are in bounds —
the accessed elements are paths found by the directory scan, and the successful
splitting path returns a result whose `OriginalFile` and `CueFile` are exactly
those scanned paths (with `Processed` set). -/
theorem process_split_path_safe (outputDir : String) (mp3Files cueFiles : List String)
    (h : needsSplitting mp3Files cueFiles = true) :
    (0 < mp3Files.length ∧ 0 < cueFiles.length) ∧
    mp3Files.headD "" ∈ mp3Files ∧ cueFiles.headD "" ∈ cueFiles ∧
    process outputDir mp3Files cueFiles true =
      Except.ok
        ⟨true,
         goJoin outputDir
           (String.mk (goTrimSuf (goBase (mp3Files.headD "").data)
             (goExt (mp3Files.headD "").data) ++ "_splitted".data)),
         mp3Files.headD "", cueFiles.headD ""⟩ := by
  have hand := h
  rw [needsSplitting, Bool.and_eq_true, beq_iff_eq, decide_eq_true_eq] at hand
  obtain ⟨h1, h2⟩ := hand
  obtain ⟨x, xs, rfl⟩ : ∃ x xs, mp3Files = x :: xs := by
    cases mp3Files with
    | nil => simp at h1
    | cons x xs => exact ⟨x, xs, rfl⟩
  obtain ⟨y, ys, rfl⟩ : ∃ y ys, cueFiles = y :: ys := by
    cases cueFiles with
    | nil => simp at h2
    | cons y ys => exact ⟨y, ys, rfl⟩
  refine ⟨⟨by simp, by simp⟩, by simp, by simp, ?_⟩
  rw [process, if_neg (by simp [h])]
  rfl

/-- Witness for `process_split_path_safe` on a directory scan that found one
MP3 and one CUE file. -/
theorem process_split_path_safe_witness :
    (0 < (["book.mp3"] : List String).length ∧ 0 < (["book.cue"] : List String).length) ∧
    (["book.mp3"] : List String).headD "" ∈ (["book.mp3"] : List String) ∧
    (["book.cue"] : List String).headD "" ∈ (["book.cue"] : List String) ∧
    process "/out" ["book.mp3"] ["book.cue"] true =
      Except.ok
        ⟨true,
         goJoin "/out"
           (String.mk (goTrimSuf (goBase ((["book.mp3"] : List String).headD "").data)
             (goExt ((["book.mp3"] : List String).headD "").data) ++ "_splitted".data)),
         (["book.mp3"] : List String).headD "", (["book.cue"] : List String).headD ""⟩ :=
  process_split_path_safe "/out" ["book.mp3"] ["book.cue"] (by decide)
